import Mathlib

/-!
Verification development for the adaptive transcoding pipeline implemented in
`src/app.py` (class `CRFWithVBVCompressor` and class `VideoCompressorApp`).

The embedding below models, faithfully to the Python source:

* the fixed compression-tier catalog and the tier classifier
  (`determine_compression_tier`), the resolution-based VBV scaler
  (`adjust_vbv_for_resolution`) and the tier-name recovery (`_get_tier_name`);
* the round-robin scheduler (`_organize_files_round_robin`);
* the CPU-throttle state machine (`_cpu_throttle_worker`);
* the scan-strategy selection (`processing_loop` / `scan_for_new_files`);
* the encode supervisor loop of `run_ffmpeg` (progress parsing, stall check,
  cancellation, and teardown actions).

Numbers that Python stores as floats (bitrates, target reductions, timestamps)
are modelled as rationals; machine Nat counters cannot overflow in Python, so
they are plain naturals.
-/

/-- Encoding tier record (one value of the `compression_tiers` dict in
`src/app.py`). The Python dict stores `vbv_maxrate` and `vbv_bufsize` as strings
of the form "1200k"; every value the program ever writes there is a canonical
"<digits>k" string that is read back only through `int(s.replace('k', ''))`, so
the two fields are modelled by their numeric kbps value. -/
structure CompressionSettings where
  crf : Nat
  vbv_maxrate : Nat
  vbv_bufsize : Nat
  preset : String
  audio_bitrate : String
  description : String
  deriving DecidableEq, Repr, Inhabited

/-- The fixed tier catalog `CRFWithVBVCompressor.compression_tiers`, in Python
dict insertion order (the order `_get_tier_name` iterates). -/
def compression_tiers : List (String × CompressionSettings) :=
  [ ("conservative",
     { crf := 35, vbv_maxrate := 1200, vbv_bufsize := 2400, preset := "faster",
       audio_bitrate := "64k", description := "Smaller file, fast processing" }),
    ("conservative-42",
     { crf := 42, vbv_maxrate := 700, vbv_bufsize := 1400, preset := "ultrafast",
       audio_bitrate := "32k",
       description := "Ukuran super kecil, artefak terlihat, proses sangat cepat" }),
    ("balanced",
     { crf := 38, vbv_maxrate := 1000, vbv_bufsize := 2000, preset := "veryfast",
       audio_bitrate := "48k", description := "Minimum file size, fastest processing" }),
    ("aggressive",
     { crf := 35, vbv_maxrate := 1200, vbv_bufsize := 2400, preset := "faster",
       audio_bitrate := "64k", description := "Smaller file, fast processing" }),
    ("maximum",
     { crf := 38, vbv_maxrate := 1000, vbv_bufsize := 2000, preset := "veryfast",
       audio_bitrate := "48k", description := "Minimum file size, fastest processing" }),
    ("ultrafast_mode",
     { crf := 33, vbv_maxrate := 2000, vbv_bufsize := 4000, preset := "ultrafast",
       audio_bitrate := "48k", description := "Maximum speed, acceptable quality" }) ]

/-- Catalog lookup by name, modelling `self.compression_tiers[name]`. -/
def getTier (name : String) : CompressionSettings :=
  ((compression_tiers.find? (fun p => p.1 == name)).map Prod.snd).getD default

/-- Media characteristics produced by `analyze_video_for_vbv` (its result
dict). `duration`, `frame_rate`, `current_bitrate`, `file_size_mb`,
`pixels_per_second` and `bitrate_per_pixel` are Python floats, modelled as
rationals. -/
structure VideoInfo where
  width : Nat
  height : Nat
  duration : ℚ
  frame_rate : ℚ
  current_bitrate : ℚ
  file_size_mb : ℚ
  pixel_count : Nat
  pixels_per_second : ℚ
  bitrate_per_pixel : ℚ
  codec : String
  deriving DecidableEq, Repr

/-- The tier classifier `CRFWithVBVCompressor.determine_compression_tier`.
`none` models a failed probe (`video_info` falsy). The nested branch
structure mirrors the source line by line; 0.8 is written 8/10 and so on. -/
def determine_compression_tier (video_info : Option VideoInfo)
    (target_reduction : ℚ) (speed_priority : Bool) : CompressionSettings :=
  match video_info with
  | none =>
      if speed_priority then getTier "ultrafast_mode" else getTier "balanced"
  | some vi =>
      if speed_priority = true ∧ vi.file_size_mb > 300 then
        getTier "ultrafast_mode"
      else if vi.current_bitrate > 5000 then
        (if speed_priority then getTier "ultrafast_mode"
         else if target_reduction > 8/10 then getTier "maximum"
         else if target_reduction > 6/10 then getTier "aggressive"
         else getTier "balanced")
      else if vi.current_bitrate > 2500 then
        (if speed_priority then getTier "ultrafast_mode"
         else if target_reduction > 7/10 then getTier "aggressive"
         else if target_reduction > 5/10 then getTier "balanced"
         else getTier "conservative")
      else if vi.current_bitrate > 1500 then
        (if target_reduction > 6/10 then getTier "balanced"
         else if target_reduction > 4/10 then getTier "conservative"
         else { getTier "conservative" with crf := 27 })
      else
        (if target_reduction > 5/10 then getTier "conservative"
         else { getTier "conservative" with
                  crf := 22, vbv_maxrate := 2500, vbv_bufsize := 5000 })

/-- The resolution scaler `CRFWithVBVCompressor.adjust_vbv_for_resolution`.
Python's `int()` truncates toward zero, which on the nonnegative values here
is the floor. -/
def adjust_vbv_for_resolution (settings : CompressionSettings)
    (video_info : VideoInfo) : CompressionSettings :=
  let multiplier : ℚ :=
    if video_info.pixel_count ≥ 3840 * 2160 then 2
    else if video_info.pixel_count ≥ 1920 * 1080 then 1
    else if video_info.pixel_count ≥ 1280 * 720 then 7/10
    else 4/10
  { settings with
      vbv_maxrate := (⌊(settings.vbv_maxrate : ℚ) * multiplier⌋).toNat,
      vbv_bufsize := (⌊(settings.vbv_bufsize : ℚ) * multiplier⌋).toNat }

/-- Tier-name recovery `CRFWithVBVCompressor._get_tier_name`: the first catalog
entry (in insertion order) whose `crf` equals the given settings' `crf`,
defaulting to "custom". -/
def get_tier_name (settings : CompressionSettings) : String :=
  ((compression_tiers.find? (fun p => p.2.crf == settings.crf)).map Prod.fst).getD
    "custom"

/-! Round-robin scheduler (`VideoCompressorApp._organize_files_round_robin`).

Python string primitives (`split`, `startswith`, `sorted`) are modelled by
structurally recursive functions on the underlying character lists, with the
same semantics; Lean's built-in position-based string functions do not reduce
inside the kernel. -/

/-- Split a character list at every occurrence of `sep`, keeping empty pieces,
exactly as Python's `s.split(sep)` with an explicit one-character separator.
`acc` holds the (reversed) characters of the piece currently being read. -/
def splitOnChar (sep : Char) : List Char → List Char → List String
  | [], acc => [String.mk acc.reverse]
  | c :: cs, acc =>
      if c = sep then String.mk acc.reverse :: splitOnChar sep cs []
      else splitOnChar sep cs (c :: acc)

/-- Path components, modelling `filepath.split('/')`. -/
def pathParts (s : String) : List String := splitOnChar '/' s.data []

/-- Camera-folder extraction from the grouping loop of
`_organize_files_round_robin`: the first path component that starts with the
literal "192.168.1.", if any. `startswith` is modelled by a character-list
match. -/
def extract_camera (fp : String) : Option String :=
  (pathParts fp).find? (fun part => "192.168.1.".data.isPrefixOf part.data)

/-- Code-point lexicographic comparison of character lists, the order Python's
`sorted` uses on strings. -/
def lexLe : List Char → List Char → Bool
  | [], _ => true
  | _ :: _, [] => false
  | a :: as, b :: bs =>
      if a = b then lexLe as bs else decide (a.toNat < b.toNat)

/-- Lexicographic string order (Python `sorted` on strings). -/
def strLe (a b : String) : Prop := lexLe a.data b.data = true

instance : DecidableRel strLe := fun a b => by unfold strLe; infer_instance

/-- The per-camera file lists built by the grouping loop: each file is appended
to the list of its extracted camera folder, in input order; files with no
camera component are dropped. A camera with no files maps to `[]` (in Python
that key is simply absent from the dict). -/
def camera_group (files : List String) (c : String) : List String :=
  files.filter (fun f => extract_camera f == some c)

/-- The set of camera folders occurring in the file list (the keys of the
grouping dict). -/
def cameraKeys (files : List String) : List String :=
  (files.filterMap extract_camera).dedup

/-- `sorted_cameras = sorted(camera_files.keys())`. -/
def sortedCameras (files : List String) : List String :=
  (cameraKeys files).insertionSort strLe

/-- First index of `a`, modelling Python `list.index`. -/
def idxOf (a : String) : List String → Nat
  | [] => 0
  | b :: bs => if b = a then 0 else idxOf a bs + 1

/-- Rotation of the camera order to start just after `start_camera`
(`sorted_cameras[next_idx:] + sorted_cameras[:next_idx]` with
`next_idx = (index + 1) % len`), applied only when a start camera is given and
still present. -/
def rotateAfter (cams : List String) : Option String → List String
  | none => cams
  | some s =>
      if s ∈ cams then
        let j := (idxOf s cams + 1) % cams.length
        cams.drop j ++ cams.take j
      else cams

/-- Output of one pass of the inner `for camera in sorted_cameras` loop: up to
`b` files taken from the front of each nonempty camera queue, in camera
order. -/
def roundOut (b : Nat) : List String → (String → List String) → List String
  | [], _ => []
  | c :: cs, st =>
      if (st c).isEmpty then roundOut b cs st
      else (st c).take b ++ roundOut b cs (Function.update st c ((st c).drop b))

/-- Camera queues left after one pass of the inner loop. -/
def roundSt (b : Nat) : List String → (String → List String) → String → List String
  | [], st => st
  | c :: cs, st =>
      if (st c).isEmpty then roundSt b cs st
      else roundSt b cs (Function.update st c ((st c).drop b))

/-- The `while any(...) and iteration < max_iterations` loop: one round per
iteration, at most `fuel` iterations (`max_iterations = 10000` in the
source). -/
def rrLoop (b : Nat) (cams : List String) : Nat → (String → List String) → List String
  | 0, _ => []
  | fuel + 1, st =>
      if cams.any (fun c => !(st c).isEmpty) then
        roundOut b cams st ++ rrLoop b cams fuel (roundSt b cams st)
      else []

/-- `VideoCompressorApp._organize_files_round_robin(file_list, batch_size,
start_camera)`. `none` models `start_camera=None` (the `if start_camera and ...`
guard). -/
def organize_files_round_robin (file_list : List String) (batch_size : Nat)
    (start_camera : Option String) : List String :=
  rrLoop batch_size (rotateAfter (sortedCameras file_list) start_camera) 10000
    (camera_group file_list)

/-- Number of files of camera folder `g` in a list. -/
def camCount (g : String) (l : List String) : Nat :=
  l.countP (fun f => extract_camera f == some g)

/-! CPU-throttle controller (`VideoCompressorApp._cpu_throttle_worker`).
Constants from the source: hysteresis 10.0, min_on 0.6, min_off 0.4,
alpha 0.3. One loop iteration consumes one CPU sample `sysPct` observed at
wall-clock time `now`; the sequence of iterations the loop actually performs
(until the process exits or a stop event is seen) is the input trace. -/

/-- Per-encode throttle state: the exponential moving average (None before the
first sample), the two-state controller (`running = true` is state "on"), and
the time of the last state switch. -/
structure ThrottleState where
  ema : Option ℚ
  running : Bool
  lastSwitch : ℚ
  deriving DecidableEq, Repr

/-- The updated moving average for a new sample:
`sys_pct if ema is None else alpha*sys_pct + (1-alpha)*ema` with alpha 0.3. -/
def throttleEma (st : ThrottleState) (sysPct : ℚ) : ℚ :=
  match st.ema with
  | none => sysPct
  | some e => 3/10 * sysPct + 7/10 * e

/-- One iteration of the throttle loop body at sample `sysPct`, time `now`.
The `proc.suspend()` / `proc.resume()` side effects are exactly the state
switches (exceptions from them are swallowed and do not affect the state). -/
def throttleStep (limit : ℚ) (st : ThrottleState) (sysPct now : ℚ) : ThrottleState :=
  let ema := throttleEma st sysPct
  if st.running then
    if ema > limit ∧ now - st.lastSwitch ≥ 6/10 then
      { ema := some ema, running := false, lastSwitch := now }
    else { st with ema := some ema }
  else
    if ema < limit - 10 ∧ now - st.lastSwitch ≥ 4/10 then
      { ema := some ema, running := true, lastSwitch := now }
    else { st with ema := some ema }

/-- The run-state transitions (suspensions and resumptions) produced over a
trace of (sample, time) pairs: each entry records the switch time and the state
entered. -/
def throttleEvents (limit : ℚ) : ThrottleState → List (ℚ × ℚ) → List (ℚ × Bool)
  | _, [] => []
  | st, (pct, now) :: rest =>
      let st' := throttleStep limit st pct now
      if st'.running = st.running then throttleEvents limit st' rest
      else (now, st'.running) :: throttleEvents limit st' rest

/-! Scan-strategy selection (`processing_loop` lines 1085-1096 and
`scan_for_new_files` lines 900-913). One scan cycle reads the clock once as
`now`; `listingOk = false` models `os.listdir(config['source'])` raising inside
`_incremental_scan`, which falls back to a full directory scan. Both a regular
full scan and a fallback full scan stamp `last_full_scan_time = now`. -/

/-- Scan bookkeeping owned by the orchestrator: `self.last_full_scan_time`
(initially 0) and the local `scan_counter` of `processing_loop`. -/
structure ScanState where
  lastFullScanTime : ℚ
  scanCounter : Nat
  deriving DecidableEq, Repr

/-- State at the start of `processing_loop` (`last_full_scan_time = 0`,
`scan_counter = 0`). -/
def initialScanState : ScanState := { lastFullScanTime := 0, scanCounter := 0 }

/-- The `force_full` flag computed in `processing_loop`. -/
def forceFullFlag (st : ScanState) (now : ℚ) : Bool :=
  decide (st.lastFullScanTime = 0) || decide (st.scanCounter % 50 = 0) ||
    decide (now - st.lastFullScanTime > 600)

/-- The `should_full_scan` condition of `scan_for_new_files`
(`full_scan_interval = 600`). -/
def shouldFullScan (st : ScanState) (now : ℚ) (force : Bool) : Bool :=
  force || decide (st.lastFullScanTime = 0) || decide (now - st.lastFullScanTime > 600)

/-- Whether the cycle ends up performing a full directory walk: either the
chosen strategy is the full scan, or the incremental scan's folder listing
fails and it falls back to `_full_directory_scan`. -/
def scanPerformsFull (st : ScanState) (now : ℚ) (listingOk : Bool) : Bool :=
  shouldFullScan st now (forceFullFlag st now) || !listingOk

/-- State update of one scan cycle: a performed full scan stamps
`last_full_scan_time = now` (`_full_directory_scan` receives the cycle's
`current_time`); `scan_counter` increments every cycle. -/
def scanCycle (st : ScanState) (now : ℚ) (listingOk : Bool) : ScanState :=
  { lastFullScanTime := if scanPerformsFull st now listingOk then now
                        else st.lastFullScanTime,
    scanCounter := st.scanCounter + 1 }

/-- Run a sequence of scan cycles, each with its clock reading and
listing outcome. -/
def runScanCycles : ScanState → List (ℚ × Bool) → ScanState
  | st, [] => st
  | st, (now, ok) :: rest => runScanCycles (scanCycle st now ok) rest

/-! Encode supervisor (`VideoCompressorApp.run_ffmpeg`, progress loop and
teardown, lines 1340-1405). The subprocess interaction is modelled by the
sequence of stdout lines the supervisor reads (each with the wall-clock time of
its arrival and the value of the cancellation flag `self.stop_event` observed
at that moment), followed by how the stream ends. -/

/-- One stdout line read by the `for line in process.stdout` loop. -/
structure EncodeEvent where
  time : ℚ
  stopFlag : Bool
  line : String
  deriving DecidableEq, Repr

/-- How the encoder's stdout behaves after the given lines: it either closes
and the process exits with `returncode` (so `process.wait()` returns), or it
stays open forever with no further output and the process never exits, leaving
the supervisor blocked in the read. -/
inductive StreamEnd
  | eofExit (returncode : Int)
  | silent
  deriving DecidableEq, Repr

/-- Outcome of one `run_ffmpeg` invocation. `completed` is a normal return;
`exitFailure`, `cancelled` and `stalled` are the raised exceptions;
`blocked` means the supervisor never gets past the blocking read. -/
inductive EncodeOutcome
  | completed
  | exitFailure (returncode : Int)
  | cancelled
  | stalled
  | blocked
  deriving DecidableEq, Repr

/-- Observable supervisor actions on the encoder process and throttle thread. -/
inductive SupervisorAction
  | killProcess
  | setThrottleStop
  | resumeProcess
  | joinThrottle
  deriving DecidableEq, Repr

/-- Python `int(value)` success on a stripped numeric string: an optional sign
followed by at least one decimal digit. -/
def parsesAsInt (s : String) : Bool :=
  match s.data with
  | [] => false
  | '-' :: ds => !ds.isEmpty && ds.all Char.isDigit
  | '+' :: ds => !ds.isEmpty && ds.all Char.isDigit
  | ds => ds.all Char.isDigit

/-- Python `str.strip()`: whitespace removed from both ends. -/
def stripChars (l : List Char) : List Char :=
  ((l.dropWhile Char.isWhitespace).reverse.dropWhile Char.isWhitespace).reverse

/-- Whether a stdout line updates `last_progress_time`: after
`line.strip().split('=')` yields exactly `[key, value]`, either
`key == 'out_time_ms'` with positive known duration and `int(value)`
succeeding, or `key == 'total_size'` with `value != "N/A"` and
`value.isdigit()`. -/
def recognizedProgressLine (duration : ℚ) (line : String) : Bool :=
  match splitOnChar '=' (stripChars line.data) [] with
  | [key, value] =>
      if key = "out_time_ms" then decide (duration > 0) && parsesAsInt value
      else if key = "total_size" then
        value != "N/A" && (!value.data.isEmpty && value.data.all Char.isDigit)
      else false
  | _ => false

/-- The teardown block after `process.wait()`: `throttle_stop_evt.set()`, then
`resume()` guarded by `process.poll() is None` — which is always false there,
since `wait()` has returned and the process has exited — then
`throttle_thread.join(0.5)` guarded by `throttle_thread.is_alive()`. -/
def waitCleanup (threadAlive : Bool) : List SupervisorAction :=
  SupervisorAction.setThrottleStop ::
    (if threadAlive then [SupervisorAction.joinThrottle] else [])

/-- The progress loop and teardown of `run_ffmpeg`, starting from
`last_progress_time = lastProgress`: per line, the cancellation flag is checked
first (kill + Exception "stopped by user"), then the stall check
`now - last_progress_time > 60` (kill + Exception "stuck"), then the line is
parsed and, if recognized, `last_progress_time` becomes the line's time. When
the stream ends, either `process.wait()` returns and the teardown block runs
(followed by the returncode check), or the supervisor stays blocked in the read
forever. -/
def superviseStream (duration : ℚ) (threadAlive : Bool) :
    ℚ → List EncodeEvent → StreamEnd → EncodeOutcome × List SupervisorAction
  | _, [], StreamEnd.eofExit code =>
      if code ≠ 0 then (EncodeOutcome.exitFailure code, waitCleanup threadAlive)
      else (EncodeOutcome.completed, waitCleanup threadAlive)
  | _, [], StreamEnd.silent => (EncodeOutcome.blocked, [])
  | lastProgress, e :: rest, se =>
      if e.stopFlag then (EncodeOutcome.cancelled, [SupervisorAction.killProcess])
      else if e.time - lastProgress > 60 then
        (EncodeOutcome.stalled, [SupervisorAction.killProcess])
      else
        superviseStream duration threadAlive
          (if recognizedProgressLine duration e.line then e.time else lastProgress)
          rest se

/-- Invariant of the round-robin state: every queued file belongs to the
camera folder it is queued under. It holds for `camera_group files` and is
preserved by the loop. -/
def GoodSt (st : String → List String) : Prop :=
  ∀ c f, f ∈ st c → extract_camera f = some c

/-- The teardown actions of `run_ffmpeg` as a function of the outcome: the
stall-kill and cancellation paths raise right after `process.kill()`; a
blocked invocation performs nothing; the paths that reach `process.wait()`
(completion and nonzero exit) run the stop-event / join cleanup, in which the
resume guard can never fire because the process has already exited. -/
def expectedTeardown (o : EncodeOutcome) (threadAlive : Bool) : List SupervisorAction :=
  match o with
  | EncodeOutcome.cancelled => [SupervisorAction.killProcess]
  | EncodeOutcome.stalled => [SupervisorAction.killProcess]
  | EncodeOutcome.blocked => []
  | _ => waitCleanup threadAlive

/-! Theorems. -/

/-- Helper: the resolution multiplier of `adjust_vbv_for_resolution` as a
standalone function of the pixel count. -/
def resolutionMultiplier (pc : Nat) : ℚ :=
  if pc ≥ 3840 * 2160 then 2
  else if pc ≥ 1920 * 1080 then 1
  else if pc ≥ 1280 * 720 then 7/10
  else 4/10

theorem adjust_vbv_eq (s : CompressionSettings) (vi : VideoInfo) :
    adjust_vbv_for_resolution s vi =
      { s with
          vbv_maxrate := (⌊(s.vbv_maxrate : ℚ) * resolutionMultiplier vi.pixel_count⌋).toNat,
          vbv_bufsize := (⌊(s.vbv_bufsize : ℚ) * resolutionMultiplier vi.pixel_count⌋).toNat } :=
  rfl

theorem resolutionMultiplier_nonneg (pc : Nat) : 0 ≤ resolutionMultiplier pc := by
  unfold resolutionMultiplier
  split_ifs <;> norm_num

theorem resolutionMultiplier_mono {p q : Nat} (h : q ≤ p) :
    resolutionMultiplier q ≤ resolutionMultiplier p := by
  unfold resolutionMultiplier
  split_ifs <;> try norm_num
  all_goals omega

theorem toNat_floor_mul_div (v a b : Nat) :
    (⌊(v : ℚ) * ((a : ℚ) / (b : ℚ))⌋).toNat = v * a / b := by
  rw [show (v : ℚ) * ((a : ℚ) / (b : ℚ)) = ((v * a : ℕ) : ℚ) / ((b : ℕ) : ℚ) by
    push_cast; ring]
  rw [Int.floor_toNat, Nat.floor_div_eq_div]

theorem toNat_floor_mul_two (v : Nat) : (⌊(v : ℚ) * 2⌋).toNat = 2 * v := by
  rw [show (v : ℚ) * 2 = ((2 * v : ℕ) : ℚ) by push_cast; ring]
  rw [Int.floor_natCast, Int.toNat_natCast]

theorem toNat_floor_mul_one (v : Nat) : (⌊(v : ℚ) * 1⌋).toNat = v := by
  rw [show (v : ℚ) * 1 = ((v : ℕ) : ℚ) by ring]
  rw [Int.floor_natCast, Int.toNat_natCast]

theorem adjust_band_4k (s : CompressionSettings) (vi : VideoInfo)
    (h1 : 3840 * 2160 ≤ vi.pixel_count) :
    adjust_vbv_for_resolution s vi =
      { s with vbv_maxrate := 2 * s.vbv_maxrate, vbv_bufsize := 2 * s.vbv_bufsize } := by
  rw [adjust_vbv_eq,
    show resolutionMultiplier vi.pixel_count = 2 from by
      unfold resolutionMultiplier; rw [if_pos h1],
    toNat_floor_mul_two, toNat_floor_mul_two]

theorem adjust_band_1080 (s : CompressionSettings) (vi : VideoInfo)
    (h1 : 1920 * 1080 ≤ vi.pixel_count) (h2 : vi.pixel_count < 3840 * 2160) :
    adjust_vbv_for_resolution s vi = s := by
  rw [adjust_vbv_eq,
    show resolutionMultiplier vi.pixel_count = 1 from by
      unfold resolutionMultiplier; rw [if_neg (by omega), if_pos h1],
    toNat_floor_mul_one, toNat_floor_mul_one]

theorem adjust_band_720 (s : CompressionSettings) (vi : VideoInfo)
    (h1 : 1280 * 720 ≤ vi.pixel_count) (h2 : vi.pixel_count < 1920 * 1080) :
    adjust_vbv_for_resolution s vi =
      { s with vbv_maxrate := s.vbv_maxrate * 7 / 10,
               vbv_bufsize := s.vbv_bufsize * 7 / 10 } := by
  rw [adjust_vbv_eq,
    show resolutionMultiplier vi.pixel_count = 7/10 from by
      unfold resolutionMultiplier; rw [if_neg (by omega), if_neg (by omega), if_pos h1],
    show (7 : ℚ)/10 = ((7 : ℕ) : ℚ) / ((10 : ℕ) : ℚ) by norm_num,
    toNat_floor_mul_div, toNat_floor_mul_div]

theorem adjust_band_low (s : CompressionSettings) (vi : VideoInfo)
    (h1 : vi.pixel_count < 1280 * 720) :
    adjust_vbv_for_resolution s vi =
      { s with vbv_maxrate := s.vbv_maxrate * 4 / 10,
               vbv_bufsize := s.vbv_bufsize * 4 / 10 } := by
  rw [adjust_vbv_eq,
    show resolutionMultiplier vi.pixel_count = 4/10 from by
      unfold resolutionMultiplier
      rw [if_neg (by omega), if_neg (by omega), if_neg (by omega)],
    show (4 : ℚ)/10 = ((4 : ℕ) : ℚ) / ((10 : ℕ) : ℚ) by norm_num,
    toNat_floor_mul_div, toNat_floor_mul_div]

theorem adjust_vbv_mono (s : CompressionSettings) (hi lo : VideoInfo)
    (h : lo.pixel_count ≤ hi.pixel_count) :
    (adjust_vbv_for_resolution s lo).vbv_maxrate ≤
      (adjust_vbv_for_resolution s hi).vbv_maxrate ∧
    (adjust_vbv_for_resolution s lo).vbv_bufsize ≤
      (adjust_vbv_for_resolution s hi).vbv_bufsize := by
  constructor
  · show (⌊(s.vbv_maxrate : ℚ) * resolutionMultiplier lo.pixel_count⌋).toNat ≤
      (⌊(s.vbv_maxrate : ℚ) * resolutionMultiplier hi.pixel_count⌋).toNat
    exact Int.toNat_le_toNat (Int.floor_mono
      (mul_le_mul_of_nonneg_left (resolutionMultiplier_mono h) (by positivity)))
  · show (⌊(s.vbv_bufsize : ℚ) * resolutionMultiplier lo.pixel_count⌋).toNat ≤
      (⌊(s.vbv_bufsize : ℚ) * resolutionMultiplier hi.pixel_count⌋).toNat
    exact Int.toNat_le_toNat (Int.floor_mono
      (mul_le_mul_of_nonneg_left (resolutionMultiplier_mono h) (by positivity)))

/-- C6: the resolution scaler multiplies both VBV bounds by 2.0 at or above
4K pixel counts, by 1.0 at or above 1080p, by 0.7 at or above 720p and by 0.4
below (with Python `int()` truncation); in the 1080p band it is the identity
and hence idempotent under re-application; and for a fixed base tier the scaled
bounds are monotonically non-increasing as the pixel count decreases, so the
4K result ≥ the 1080p result ≥ the 720p result ≥ the sub-720p result. -/
theorem resolution_scaler_bands_idempotent_monotone :
    (∀ (s : CompressionSettings) (vi : VideoInfo),
      (3840 * 2160 ≤ vi.pixel_count →
        adjust_vbv_for_resolution s vi =
          { s with vbv_maxrate := 2 * s.vbv_maxrate,
                   vbv_bufsize := 2 * s.vbv_bufsize }) ∧
      (1920 * 1080 ≤ vi.pixel_count → vi.pixel_count < 3840 * 2160 →
        adjust_vbv_for_resolution s vi = s) ∧
      (1280 * 720 ≤ vi.pixel_count → vi.pixel_count < 1920 * 1080 →
        adjust_vbv_for_resolution s vi =
          { s with vbv_maxrate := s.vbv_maxrate * 7 / 10,
                   vbv_bufsize := s.vbv_bufsize * 7 / 10 }) ∧
      (vi.pixel_count < 1280 * 720 →
        adjust_vbv_for_resolution s vi =
          { s with vbv_maxrate := s.vbv_maxrate * 4 / 10,
                   vbv_bufsize := s.vbv_bufsize * 4 / 10 })) ∧
    (∀ (s : CompressionSettings) (vi : VideoInfo),
      1920 * 1080 ≤ vi.pixel_count → vi.pixel_count < 3840 * 2160 →
      adjust_vbv_for_resolution (adjust_vbv_for_resolution s vi) vi =
        adjust_vbv_for_resolution s vi) ∧
    (∀ (s : CompressionSettings) (hi lo : VideoInfo),
      lo.pixel_count ≤ hi.pixel_count →
      (adjust_vbv_for_resolution s lo).vbv_maxrate ≤
        (adjust_vbv_for_resolution s hi).vbv_maxrate ∧
      (adjust_vbv_for_resolution s lo).vbv_bufsize ≤
        (adjust_vbv_for_resolution s hi).vbv_bufsize) :=
  ⟨fun s vi =>
    ⟨adjust_band_4k s vi, adjust_band_1080 s vi, adjust_band_720 s vi,
     adjust_band_low s vi⟩,
   fun s vi h1 h2 => by rw [adjust_band_1080 s vi h1 h2, adjust_band_1080 s vi h1 h2],
   fun s hi lo h => adjust_vbv_mono s hi lo h⟩

/-- Witness for C6 at concrete inputs: a 720p characteristics record scales
the "maximum" tier to bounds no larger than a 4K one does. -/
theorem resolution_scaler_bands_witness :
    (adjust_vbv_for_resolution (getTier "maximum")
        { width := 1280, height := 720, duration := 60, frame_rate := 25,
          current_bitrate := 6000, file_size_mb := 100, pixel_count := 921600,
          pixels_per_second := 23040000, bitrate_per_pixel := 1/100,
          codec := "h264" }).vbv_maxrate ≤
      (adjust_vbv_for_resolution (getTier "maximum")
        { width := 3840, height := 2160, duration := 60, frame_rate := 25,
          current_bitrate := 6000, file_size_mb := 100, pixel_count := 8294400,
          pixels_per_second := 207360000, bitrate_per_pixel := 1/1000,
          codec := "h264" }).vbv_maxrate ∧
    (adjust_vbv_for_resolution (getTier "maximum")
        { width := 1280, height := 720, duration := 60, frame_rate := 25,
          current_bitrate := 6000, file_size_mb := 100, pixel_count := 921600,
          pixels_per_second := 23040000, bitrate_per_pixel := 1/100,
          codec := "h264" }).vbv_bufsize ≤
      (adjust_vbv_for_resolution (getTier "maximum")
        { width := 3840, height := 2160, duration := 60, frame_rate := 25,
          current_bitrate := 6000, file_size_mb := 100, pixel_count := 8294400,
          pixels_per_second := 207360000, bitrate_per_pixel := 1/1000,
          codec := "h264" }).vbv_bufsize :=
  resolution_scaler_bands_idempotent_monotone.2.2 (getTier "maximum") _ _
    (by norm_num)

/-- C5 counterexample: in the lowest bitrate band with a low target reduction
(and speed priority disabled) the classifier returns a mutated copy of the
"conservative" tier (crf 22, VBV 2500k/5000k), which is not equal to any entry
of the fixed catalog — so not every band/threshold combination maps to a
catalog entry. -/
theorem classifier_low_band_returns_no_catalog_entry :
    determine_compression_tier
      (some { width := 640, height := 480, duration := 60, frame_rate := 25,
              current_bitrate := 1000, file_size_mb := 10, pixel_count := 307200,
              pixels_per_second := 7680000, bitrate_per_pixel := 1/300,
              codec := "h264" }) (3/10) false ∉ compression_tiers.map Prod.snd := by
  have h1 : determine_compression_tier
      (some { width := 640, height := 480, duration := 60, frame_rate := 25,
              current_bitrate := 1000, file_size_mb := 10, pixel_count := 307200,
              pixels_per_second := 7680000, bitrate_per_pixel := 1/300,
              codec := "h264" }) (3/10) false =
      { getTier "conservative" with
          crf := 22, vbv_maxrate := 2500, vbv_bufsize := 5000 } := by
    simp only [determine_compression_tier]
    norm_num
  rw [h1]
  decide

/-- C5 (amended): the classifier is the fixed decision table of the source.
With characteristics present, speed priority off: bitrate over 5000 maps
reductions over 0.8 / over 0.6 / at most 0.6 to "maximum" / "aggressive" /
"balanced"; bitrate over 2500 maps over 0.7 / over 0.5 / at most 0.5 to
"aggressive" / "balanced" / "conservative"; bitrate over 1500 maps over 0.6 /
over 0.4 to "balanced" / "conservative" and at most 0.4 to a copied
conservative tier with crf 27; bitrate at most 1500 maps over 0.5 to
"conservative" and at most 0.5 to a copied conservative tier with crf 22 and
VBV 2500k/5000k. Absent characteristics give "ultrafast_mode" (speed priority)
or "balanced"; with speed priority on, a file over 300 MB or bitrate over 2500
gives "ultrafast_mode". -/
theorem classifier_decision_table (vi : VideoInfo) (tr : ℚ) :
    (determine_compression_tier none tr true = getTier "ultrafast_mode") ∧
    (determine_compression_tier none tr false = getTier "balanced") ∧
    (vi.file_size_mb > 300 →
      determine_compression_tier (some vi) tr true = getTier "ultrafast_mode") ∧
    (vi.current_bitrate > 2500 →
      determine_compression_tier (some vi) tr true = getTier "ultrafast_mode") ∧
    (vi.current_bitrate > 5000 → tr > 8/10 →
      determine_compression_tier (some vi) tr false = getTier "maximum") ∧
    (vi.current_bitrate > 5000 → tr ≤ 8/10 → tr > 6/10 →
      determine_compression_tier (some vi) tr false = getTier "aggressive") ∧
    (vi.current_bitrate > 5000 → tr ≤ 6/10 →
      determine_compression_tier (some vi) tr false = getTier "balanced") ∧
    (vi.current_bitrate ≤ 5000 → vi.current_bitrate > 2500 → tr > 7/10 →
      determine_compression_tier (some vi) tr false = getTier "aggressive") ∧
    (vi.current_bitrate ≤ 5000 → vi.current_bitrate > 2500 → tr ≤ 7/10 → tr > 5/10 →
      determine_compression_tier (some vi) tr false = getTier "balanced") ∧
    (vi.current_bitrate ≤ 5000 → vi.current_bitrate > 2500 → tr ≤ 5/10 →
      determine_compression_tier (some vi) tr false = getTier "conservative") ∧
    (vi.current_bitrate ≤ 2500 → vi.current_bitrate > 1500 → tr > 6/10 →
      determine_compression_tier (some vi) tr false = getTier "balanced") ∧
    (vi.current_bitrate ≤ 2500 → vi.current_bitrate > 1500 → tr ≤ 6/10 → tr > 4/10 →
      determine_compression_tier (some vi) tr false = getTier "conservative") ∧
    (vi.current_bitrate ≤ 2500 → vi.current_bitrate > 1500 → tr ≤ 4/10 →
      determine_compression_tier (some vi) tr false =
        { getTier "conservative" with crf := 27 }) ∧
    (vi.current_bitrate ≤ 1500 → tr > 5/10 →
      determine_compression_tier (some vi) tr false = getTier "conservative") ∧
    (vi.current_bitrate ≤ 1500 → tr ≤ 5/10 →
      determine_compression_tier (some vi) tr false =
        { getTier "conservative" with
            crf := 22, vbv_maxrate := 2500, vbv_bufsize := 5000 }) := by
  refine ⟨rfl, rfl, ?_, ?_, ?_, ?_, ?_, ?_, ?_, ?_, ?_, ?_, ?_, ?_, ?_⟩
  · intro h1
    simp only [determine_compression_tier]
    rw [if_pos ⟨trivial, h1⟩]
  · intro h1
    simp only [determine_compression_tier]
    by_cases hs : vi.file_size_mb > 300
    · rw [if_pos ⟨trivial, hs⟩]
    · rw [if_neg (fun h => hs h.2)]
      by_cases hb : vi.current_bitrate > 5000
      · rw [if_pos hb, if_pos trivial]
      · rw [if_neg hb, if_pos h1, if_pos trivial]
  · intro h1 h2
    simp only [determine_compression_tier]
    rw [if_neg (by simp), if_pos h1, if_neg (by simp), if_pos h2]
  · intro h1 h2 h3
    simp only [determine_compression_tier]
    rw [if_neg (by simp), if_pos h1, if_neg (by simp), if_neg (by linarith),
      if_pos h3]
  · intro h1 h2
    simp only [determine_compression_tier]
    rw [if_neg (by simp), if_pos h1, if_neg (by simp), if_neg (by linarith),
      if_neg (by linarith)]
  · intro h1 h2 h3
    simp only [determine_compression_tier]
    rw [if_neg (by simp), if_neg (by linarith), if_pos h2, if_neg (by simp),
      if_pos h3]
  · intro h1 h2 h3 h4
    simp only [determine_compression_tier]
    rw [if_neg (by simp), if_neg (by linarith), if_pos h2, if_neg (by simp),
      if_neg (by linarith), if_pos h4]
  · intro h1 h2 h3
    simp only [determine_compression_tier]
    rw [if_neg (by simp), if_neg (by linarith), if_pos h2, if_neg (by simp),
      if_neg (by linarith), if_neg (by linarith)]
  · intro h1 h2 h3
    simp only [determine_compression_tier]
    rw [if_neg (by simp), if_neg (by linarith), if_neg (by linarith), if_pos h2,
      if_pos h3]
  · intro h1 h2 h3 h4
    simp only [determine_compression_tier]
    rw [if_neg (by simp), if_neg (by linarith), if_neg (by linarith), if_pos h2,
      if_neg (by linarith), if_pos h4]
  · intro h1 h2 h3
    simp only [determine_compression_tier]
    rw [if_neg (by simp), if_neg (by linarith), if_neg (by linarith), if_pos h2,
      if_neg (by linarith), if_neg (by linarith)]
  · intro h1 h2
    simp only [determine_compression_tier]
    rw [if_neg (by simp), if_neg (by linarith), if_neg (by linarith),
      if_neg (by linarith), if_pos h2]
  · intro h1 h2
    simp only [determine_compression_tier]
    rw [if_neg (by simp), if_neg (by linarith), if_neg (by linarith),
      if_neg (by linarith), if_neg (by linarith)]

/-- Witness for C5 at a concrete input: bitrate 6000 kbps, target reduction
0.9, speed priority off yields the "maximum" catalog entry. -/
theorem classifier_decision_table_witness :
    determine_compression_tier
      (some { width := 1920, height := 1080, duration := 60, frame_rate := 25,
              current_bitrate := 6000, file_size_mb := 100, pixel_count := 2073600,
              pixels_per_second := 51840000, bitrate_per_pixel := 1/345,
              codec := "h264" }) (9/10) false = getTier "maximum" :=
  (classifier_decision_table
      { width := 1920, height := 1080, duration := 60, frame_rate := 25,
        current_bitrate := 6000, file_size_mb := 100, pixel_count := 2073600,
        pixels_per_second := 51840000, bitrate_per_pixel := 1/345,
        codec := "h264" } (9/10)).2.2.2.2.1 (by norm_num) (by norm_num)

/-- C10: tier-name recovery scans the catalog in insertion order and returns
the first entry whose crf matches; since "conservative" and "aggressive" share
crf 35 and "balanced" and "maximum" share crf 38, any settings with crf 38
(in particular the "maximum" tier, also after resolution scaling) are reported
as "balanced", and any settings with crf 35 (in particular the "aggressive"
tier, also after resolution scaling) are reported as "conservative". -/
theorem tier_name_first_match_collision :
    get_tier_name (getTier "maximum") = "balanced" ∧
    get_tier_name (getTier "aggressive") = "conservative" ∧
    (getTier "conservative").crf = (getTier "aggressive").crf ∧
    (getTier "balanced").crf = (getTier "maximum").crf ∧
    (∀ s : CompressionSettings, s.crf = 38 → get_tier_name s = "balanced") ∧
    (∀ s : CompressionSettings, s.crf = 35 → get_tier_name s = "conservative") ∧
    (∀ vi : VideoInfo,
      get_tier_name (adjust_vbv_for_resolution (getTier "maximum") vi) = "balanced") ∧
    (∀ vi : VideoInfo,
      get_tier_name (adjust_vbv_for_resolution (getTier "aggressive") vi) =
        "conservative") := by
  refine ⟨by decide, by decide, by decide, by decide, ?_, ?_, ?_, ?_⟩
  · intro s h
    simp only [get_tier_name, h]
    rfl
  · intro s h
    simp only [get_tier_name, h]
    rfl
  · intro vi
    rfl
  · intro vi
    rfl

/-- Witness for C10: a settings record with crf 38 but otherwise unlike any
catalog entry is still reported as "balanced". -/
theorem tier_name_first_match_collision_witness :
    get_tier_name
      { crf := 38, vbv_maxrate := 1, vbv_bufsize := 1, preset := "p",
        audio_bitrate := "a", description := "d" } = "balanced" :=
  tier_name_first_match_collision.2.2.2.2.1 _ rfl

theorem throttleStep_cases (limit : ℚ) (st : ThrottleState) (pct now : ℚ) :
    (throttleStep limit st pct now =
      { ema := some (throttleEma st pct), running := st.running,
        lastSwitch := st.lastSwitch }) ∨
    (st.running = true ∧ throttleEma st pct > limit ∧ now - st.lastSwitch ≥ 6/10 ∧
      throttleStep limit st pct now =
        { ema := some (throttleEma st pct), running := false, lastSwitch := now }) ∨
    (st.running = false ∧ throttleEma st pct < limit - 10 ∧
      now - st.lastSwitch ≥ 4/10 ∧
      throttleStep limit st pct now =
        { ema := some (throttleEma st pct), running := true, lastSwitch := now }) := by
  simp only [throttleStep]
  by_cases hr : st.running = true
  · rw [if_pos hr]
    by_cases hc : throttleEma st pct > limit ∧ now - st.lastSwitch ≥ 6/10
    · exact Or.inr (Or.inl ⟨hr, hc.1, hc.2, by rw [if_pos hc]⟩)
    · refine Or.inl ?_
      rw [if_neg hc, hr]
  · rw [if_neg hr]
    have hr' : st.running = false := by
      cases h : st.running
      · rfl
      · exact absurd h hr
    by_cases hc : throttleEma st pct < limit - 10 ∧ now - st.lastSwitch ≥ 4/10
    · exact Or.inr (Or.inr ⟨hr', hc.1, hc.2, by rw [if_pos hc]⟩)
    · refine Or.inl ?_
      rw [if_neg hc, hr']

theorem throttleStep_on_to_off {limit : ℚ} {st : ThrottleState} {pct now : ℚ}
    (hrun : st.running = true)
    (hoff : (throttleStep limit st pct now).running = false) :
    throttleEma st pct > limit ∧ now - st.lastSwitch ≥ 6/10 := by
  rcases throttleStep_cases limit st pct now with h | h | h
  · rw [h] at hoff
    simp only [] at hoff
    rw [hoff] at hrun
    exact absurd hrun (by simp)
  · exact ⟨h.2.1, h.2.2.1⟩
  · exact absurd hrun (by simp [h.1])

theorem throttleStep_off_to_on {limit : ℚ} {st : ThrottleState} {pct now : ℚ}
    (hrun : st.running = false)
    (hon : (throttleStep limit st pct now).running = true) :
    throttleEma st pct < limit - 10 ∧ now - st.lastSwitch ≥ 4/10 := by
  rcases throttleStep_cases limit st pct now with h | h | h
  · rw [h] at hon
    simp only [] at hon
    rw [hon] at hrun
    exact absurd hrun (by simp)
  · exact absurd hrun (by simp [h.1])
  · exact ⟨h.2.1, h.2.2.1⟩

theorem throttleEvents_head_ge (limit : ℚ) :
    ∀ (trace : List (ℚ × ℚ)) (st : ThrottleState) (e : ℚ × Bool),
      e ∈ (throttleEvents limit st trace).head? →
      e.1 - st.lastSwitch ≥ (if st.running then (6:ℚ)/10 else 4/10)
  | [], st, e, he => by simp [throttleEvents] at he
  | (pct, now) :: rest, st, e, he => by
      simp only [throttleEvents] at he
      by_cases h : (throttleStep limit st pct now).running = st.running
      · rw [if_pos h] at he
        have hrec := throttleEvents_head_ge limit rest (throttleStep limit st pct now) e he
        rcases throttleStep_cases limit st pct now with hc | hc | hc
        · rw [hc] at hrec
          exact hrec
        · rw [hc.2.2.2] at h
          simp only [] at h
          rw [hc.1] at h
          exact absurd h (by simp)
        · rw [hc.2.2.2] at h
          simp only [] at h
          rw [hc.1] at h
          exact absurd h (by simp)
      · rw [if_neg h] at he
        simp only [List.head?_cons, Option.mem_def, Option.some_inj] at he
        subst he
        rcases throttleStep_cases limit st pct now with hc | hc | hc
        · exact absurd (by rw [hc]) h
        · rw [hc.1]
          simpa using hc.2.2.1
        · rw [hc.1]
          simpa using hc.2.2.1

theorem throttleEvents_chain (limit : ℚ) :
    ∀ (trace : List (ℚ × ℚ)) (st : ThrottleState),
      List.Chain' (fun e1 e2 => e2.1 - e1.1 ≥ (if e1.2 then (6:ℚ)/10 else 4/10))
        (throttleEvents limit st trace)
  | [], st => by simp [throttleEvents]
  | (pct, now) :: rest, st => by
      simp only [throttleEvents]
      by_cases h : (throttleStep limit st pct now).running = st.running
      · rw [if_pos h]
        exact throttleEvents_chain limit rest _
      · rw [if_neg h]
        refine List.chain'_cons'.mpr ⟨?_, throttleEvents_chain limit rest _⟩
        intro e he
        have hh := throttleEvents_head_ge limit rest (throttleStep limit st pct now) e he
        rcases throttleStep_cases limit st pct now with hc | hc | hc
        · exact absurd (by rw [hc]) h
        · rw [hc.2.2.2] at hh ⊢
          simpa using hh
        · rw [hc.2.2.2] at hh ⊢
          simpa using hh

/-- C7: the throttle controller switches Running to Suspended only when the
exponential moving average (updated with the current sample) exceeds the
configured ceiling and at least 0.6 s have passed since the last switch, and
Suspended to Running only when the average drops below ceiling minus 10 points
and at least 0.4 s have passed since the last switch; consequently, along any
sample trace, consecutive run-state changes are separated by at least the
dwell time of the state being left (0.6 s after entering Running, 0.4 s after
entering Suspended), and the first change comes no sooner than the dwell of
the initial state. -/
theorem throttle_transition_guards_and_dwell :
    (∀ (limit : ℚ) (st : ThrottleState) (pct now : ℚ),
      st.running = true → (throttleStep limit st pct now).running = false →
      throttleEma st pct > limit ∧ now - st.lastSwitch ≥ 6/10) ∧
    (∀ (limit : ℚ) (st : ThrottleState) (pct now : ℚ),
      st.running = false → (throttleStep limit st pct now).running = true →
      throttleEma st pct < limit - 10 ∧ now - st.lastSwitch ≥ 4/10) ∧
    (∀ (limit : ℚ) (st : ThrottleState) (trace : List (ℚ × ℚ)),
      List.Chain' (fun e1 e2 => e2.1 - e1.1 ≥ (if e1.2 then (6:ℚ)/10 else 4/10))
        (throttleEvents limit st trace)) ∧
    (∀ (limit : ℚ) (st : ThrottleState) (trace : List (ℚ × ℚ)) (e : ℚ × Bool),
      e ∈ (throttleEvents limit st trace).head? →
      e.1 - st.lastSwitch ≥ (if st.running then (6:ℚ)/10 else 4/10)) :=
  ⟨fun _ _ _ _ => throttleStep_on_to_off,
   fun _ _ _ _ => throttleStep_off_to_on,
   fun limit st trace => throttleEvents_chain limit trace st,
   fun limit st trace e he => throttleEvents_head_ge limit trace st e he⟩

/-- Witness for C7 at a concrete input: with ceiling 85, initial state Running
(last switch at time 0) and a first CPU sample of 100 percent at time 1, the
controller suspends, and the guard conditions obtained from the theorem hold
concretely. -/
theorem throttle_transition_guards_witness :
    throttleEma { ema := none, running := true, lastSwitch := 0 } 100 > 85 ∧
    (1:ℚ) - 0 ≥ 6/10 :=
  throttle_transition_guards_and_dwell.1 85
    { ema := none, running := true, lastSwitch := 0 } 100 1 rfl
    (by norm_num [throttleStep, throttleEma])

/-- C8 counterexample: after one scan cycle at time 100 (a full scan), the
next cycle at time 200 is neither the first cycle, nor at a counter multiple
of 50, nor more than 600 s past the last full scan — yet when the incremental
scan's folder listing fails, the cycle still performs a full directory scan
(the fallback), refuting the claimed "if and only if". -/
theorem scan_strategy_fallback_cex :
    scanPerformsFull (runScanCycles initialScanState [(100, true)]) 200 false = true ∧
    ¬ ((runScanCycles initialScanState [(100, true)]).scanCounter = 0 ∨
       (runScanCycles initialScanState [(100, true)]).scanCounter % 50 = 0 ∨
       (200:ℚ) - (runScanCycles initialScanState [(100, true)]).lastFullScanTime > 600) := by
  norm_num [runScanCycles, scanCycle, scanPerformsFull, shouldFullScan,
    forceFullFlag, initialScanState]

theorem scanCycle_lastFull_ne_zero (st : ScanState) (now : ℚ) (ok : Bool)
    (hnow : 0 < now) : (scanCycle st now ok).lastFullScanTime ≠ 0 := by
  simp only [scanCycle]
  by_cases h : scanPerformsFull st now ok = true
  · rw [if_pos h]
    exact ne_of_gt hnow
  · rw [if_neg h]
    intro h0
    apply h
    simp [scanPerformsFull, shouldFullScan, forceFullFlag, h0]

theorem runScanCycles_lastFull_ne_zero :
    ∀ (trace : List (ℚ × Bool)) (st : ScanState), trace ≠ [] →
      (∀ x ∈ trace, 0 < x.1) →
      (runScanCycles st trace).lastFullScanTime ≠ 0
  | [], _, h, _ => absurd rfl h
  | (now, ok) :: rest, st, _, hpos => by
      simp only [runScanCycles]
      rcases eq_or_ne rest [] with hr | hr
      · subst hr
        exact scanCycle_lastFull_ne_zero st now ok (hpos (now, ok) (by simp))
      · exact runScanCycles_lastFull_ne_zero rest _ hr
          (fun x hx => hpos x (by simp [hx]))

theorem runScanCycles_counter :
    ∀ (trace : List (ℚ × Bool)) (st : ScanState),
      (runScanCycles st trace).scanCounter = st.scanCounter + trace.length
  | [], st => by simp [runScanCycles]
  | (now, ok) :: rest, st => by
      simp only [runScanCycles, runScanCycles_counter rest]
      simp only [scanCycle, List.length_cons]
      omega

/-- C8 (amended): a scan cycle performs a full directory scan exactly when it
is the very first cycle, or the scan-cycle counter is a multiple of 50, or
more than 600 s have passed since the last full scan, or the incremental
scan's folder listing fails (in which case `_incremental_scan` falls back to a
full scan); otherwise it performs an incremental scan. Stated over any run of
previous cycles with positive clock readings. -/
theorem scan_strategy_selection (trace : List (ℚ × Bool)) (now : ℚ) (ok : Bool)
    (hpos : ∀ x ∈ trace, 0 < x.1) :
    scanPerformsFull (runScanCycles initialScanState trace) now ok = true ↔
      ((runScanCycles initialScanState trace).scanCounter = 0 ∨
       (runScanCycles initialScanState trace).scanCounter % 50 = 0 ∨
       now - (runScanCycles initialScanState trace).lastFullScanTime > 600 ∨
       ok = false) := by
  have hcnt : (runScanCycles initialScanState trace).scanCounter = trace.length := by
    rw [runScanCycles_counter]
    simp [initialScanState]
  rcases eq_or_ne trace [] with ht | ht
  · subst ht
    simp [runScanCycles, scanPerformsFull, shouldFullScan, forceFullFlag,
      initialScanState]
  · have hlf : (runScanCycles initialScanState trace).lastFullScanTime ≠ 0 :=
      runScanCycles_lastFull_ne_zero trace _ ht hpos
    have hc : (runScanCycles initialScanState trace).scanCounter ≠ 0 := by
      rw [hcnt]
      simpa using ht
    simp only [scanPerformsFull, shouldFullScan, forceFullFlag, Bool.or_eq_true,
      Bool.not_eq_true', decide_eq_true_eq]
    tauto

/-- Witness for C8: on the very first cycle (empty history) a full scan is
performed. -/
theorem scan_strategy_selection_witness :
    scanPerformsFull (runScanCycles initialScanState []) 5 true = true :=
  (scan_strategy_selection [] 5 true (by simp)).mpr (Or.inl rfl)

/-- C1 (evaluation at the failing input): an encoder that emits no stdout
line at all and never exits leaves the supervisor blocked in
`for line in process.stdout` forever — the stall check sits inside the loop
body, so it never runs, no kill is performed and no stall failure is raised,
for any duration and any starting `last_progress_time`. -/
theorem supervisor_silent_encoder_never_killed :
    (∀ (duration lastProgress : ℚ) (threadAlive : Bool),
      superviseStream duration threadAlive lastProgress [] StreamEnd.silent =
        (EncodeOutcome.blocked, [])) ∧
    SupervisorAction.killProcess ∉ (superviseStream 10 true 0 [] StreamEnd.silent).2 ∧
    (superviseStream 10 true 0 [] StreamEnd.silent).1 ≠ EncodeOutcome.stalled :=
  ⟨fun _ _ _ => rfl, by decide, by decide⟩

/-- C2 counterexample: an invocation cancelled at the first progress line
(with the encoder process alive, and possibly suspended by the throttle at
that moment) kills the process and raises immediately: the teardown that would
resume a suspended process before joining the throttle thread is skipped — no
resume and no join happen on this exit path. -/
theorem supervisor_cancel_skips_resume_cex :
    superviseStream 10 true 0
        [{ time := 5, stopFlag := true, line := "out_time_ms=1000" }]
        (StreamEnd.eofExit 0) =
      (EncodeOutcome.cancelled, [SupervisorAction.killProcess]) ∧
    SupervisorAction.resumeProcess ∉
      (superviseStream 10 true 0
        [{ time := 5, stopFlag := true, line := "out_time_ms=1000" }]
        (StreamEnd.eofExit 0)).2 ∧
    SupervisorAction.joinThrottle ∉
      (superviseStream 10 true 0
        [{ time := 5, stopFlag := true, line := "out_time_ms=1000" }]
        (StreamEnd.eofExit 0)).2 :=
  ⟨rfl, by decide, by decide⟩

/-- C2 (amended): on every exit path of the supervisor the teardown actions
are exactly determined by the outcome — the stall-kill and cancellation paths
kill the process and raise without any resume or join; the completion and
nonzero-exit paths (after `process.wait()`) signal the throttle stop event and
join the thread, and since the process has already exited there, the
resume-if-alive guard never fires: no exit path ever performs a resume. -/
theorem supervisor_teardown_actions (duration : ℚ) (threadAlive : Bool) :
    ∀ (events : List EncodeEvent) (lastProgress : ℚ) (se : StreamEnd),
      ((superviseStream duration threadAlive lastProgress events se).2 =
        expectedTeardown
          (superviseStream duration threadAlive lastProgress events se).1
          threadAlive) ∧
      SupervisorAction.resumeProcess ∉
        (superviseStream duration threadAlive lastProgress events se).2 := by
  intro events
  induction events with
  | nil =>
    intro lastP se
    cases se with
    | eofExit code =>
      by_cases h : code ≠ 0
      · simp only [superviseStream, if_pos h]
        exact ⟨rfl, by cases threadAlive <;> decide⟩
      · simp only [superviseStream, if_neg h]
        exact ⟨rfl, by cases threadAlive <;> decide⟩
    | silent => exact ⟨rfl, List.not_mem_nil _⟩
  | cons e rest ih =>
    intro lastP se
    simp only [superviseStream]
    by_cases h1 : e.stopFlag = true
    · rw [if_pos h1]
      exact ⟨rfl, by decide⟩
    · rw [if_neg h1]
      by_cases h2 : e.time - lastP > 60
      · rw [if_pos h2]
        exact ⟨rfl, by decide⟩
      · rw [if_neg h2]
        exact ih _ _

theorem goodSt_camera_group (files : List String) : GoodSt (camera_group files) := by
  intro c f hf
  have := (List.mem_filter.mp hf).2
  simpa using this

theorem camCount_append (g : String) (l1 l2 : List String) :
    camCount g (l1 ++ l2) = camCount g l1 + camCount g l2 := by
  simp [camCount, List.countP_append]

theorem camCount_take_le (g : String) (l : List String) (p : Nat) :
    camCount g (l.take p) ≤ camCount g l :=
  List.Sublist.countP_le _ (List.take_sublist p l)

theorem camCount_all_eq {c : String} :
    ∀ {l : List String}, (∀ f ∈ l, extract_camera f = some c) →
      ∀ g, camCount g l = if g = c then l.length else 0
  | [], _, g => by simp [camCount]
  | f :: l, h, g => by
      have hf := h f (by simp)
      have hrest := camCount_all_eq (fun x hx => h x (List.mem_cons_of_mem f hx)) g
      simp only [camCount, List.countP_cons] at hrest ⊢
      rw [hrest, hf]
      rcases eq_or_ne g c with rfl | hg
      · simp
      · simp [Ne.symm hg, hg]

theorem goodSt_update {st : String → List String} (hg : GoodSt st) (c : String)
    (b : Nat) : GoodSt (Function.update st c ((st c).drop b)) := by
  intro x f hf
  rcases eq_or_ne x c with rfl | hx
  · rw [Function.update_same] at hf
    exact hg x f (List.mem_of_mem_drop hf)
  · rw [Function.update_noteq hx] at hf
    exact hg x f hf

theorem goodSt_roundSt (b : Nat) :
    ∀ (cams : List String) (st : String → List String), GoodSt st →
      GoodSt (roundSt b cams st)
  | [], st, hg => hg
  | c :: cs, st, hg => by
      simp only [roundSt]
      by_cases he : (st c).isEmpty
      · rw [if_pos he]
        exact goodSt_roundSt b cs st hg
      · rw [if_neg he]
        exact goodSt_roundSt b cs _ (goodSt_update hg c b)

theorem roundSt_apply (b : Nat) :
    ∀ (cams : List String) (st : String → List String), cams.Nodup →
      ∀ x, roundSt b cams st x = if x ∈ cams then (st x).drop b else st x
  | [], st, _, x => by simp [roundSt]
  | c :: cs, st, hnd, x => by
      obtain ⟨hc, hnd'⟩ := List.nodup_cons.mp hnd
      simp only [roundSt]
      by_cases he : (st c).isEmpty
      · rw [if_pos he, roundSt_apply b cs st hnd' x]
        have hst : st c = [] := List.isEmpty_iff.mp he
        rcases eq_or_ne x c with rfl | hx
        · simp [hc, hst]
        · simp [hx]
      · rw [if_neg he, roundSt_apply b cs _ hnd' x]
        rcases eq_or_ne x c with rfl | hx
        · simp [hc, Function.update_same]
        · simp [hx, Function.update_noteq hx]

theorem camCount_roundOut (b : Nat) :
    ∀ (cams : List String) (st : String → List String), cams.Nodup → GoodSt st →
      ∀ g, camCount g (roundOut b cams st) =
        if g ∈ cams then min b (st g).length else 0
  | [], st, _, _, g => by simp [roundOut, camCount]
  | c :: cs, st, hnd, hg, g => by
      obtain ⟨hc, hnd'⟩ := List.nodup_cons.mp hnd
      simp only [roundOut]
      by_cases he : (st c).isEmpty
      · rw [if_pos he, camCount_roundOut b cs st hnd' hg g]
        have hst : st c = [] := List.isEmpty_iff.mp he
        rcases eq_or_ne g c with rfl | hne
        · simp [hc, hst]
        · simp [hne]
      · rw [if_neg he, camCount_append,
          camCount_all_eq (fun f hf => hg c f (List.mem_of_mem_take hf)) g,
          camCount_roundOut b cs (Function.update st c ((st c).drop b)) hnd'
            (goodSt_update hg c b) g]
        rcases eq_or_ne g c with rfl | hne
        · rw [if_pos rfl, if_neg hc, if_pos (by simp)]
          simp [List.length_take, Nat.min_comm]
        · rw [if_neg hne]
          by_cases hgs : g ∈ cs
          · rw [if_pos hgs, if_pos (by simp [hgs]), Function.update_noteq hne]
            exact Nat.zero_add _
          · rw [if_neg hgs, if_neg (by simp [hgs, hne])]

theorem camCount_roundOut_take_le (b : Nat) (cams : List String)
    (st : String → List String) (hnd : cams.Nodup) (hg : GoodSt st) (g : String)
    (p : Nat) : camCount g ((roundOut b cams st).take p) ≤ b := by
  refine le_trans (camCount_take_le g _ p) ?_
  rw [camCount_roundOut b cams st hnd hg g]
  split_ifs
  · exact Nat.min_le_left _ _
  · exact Nat.zero_le _

theorem rrLoop_fairness (b : Nat) (cams : List String) (hnd : cams.Nodup) :
    ∀ (fuel : Nat) (st : String → List String), GoodSt st →
      ∀ (p : Nat) (g h : String), g ∈ cams → h ∈ cams →
        camCount g ((rrLoop b cams fuel st).take p) < (st g).length →
        camCount h ((rrLoop b cams fuel st).take p) < (st h).length →
        camCount g ((rrLoop b cams fuel st).take p) ≤
          camCount h ((rrLoop b cams fuel st).take p) + b
  | 0, st, _, p, g, h, _, _, _, _ => by
      simp [rrLoop, camCount]
  | fuel + 1, st, hgs, p, g, h, hgm, hhm, hpg, hph => by
      by_cases hany : cams.any (fun c => !(st c).isEmpty) = true
      · have hO : rrLoop b cams (fuel + 1) st =
            roundOut b cams st ++ rrLoop b cams fuel (roundSt b cams st) := by
          simp only [rrLoop, if_pos hany]
        rw [hO] at hpg hph ⊢
        simp only [List.take_append_eq_append_take, camCount_append] at hpg hph ⊢
        rcases le_or_lt p (roundOut b cams st).length with hp | hp
        · have h0 : p - (roundOut b cams st).length = 0 := Nat.sub_eq_zero_of_le hp
          rw [h0] at hpg hph ⊢
          simp only [List.take_zero, camCount, List.countP_nil] at hpg hph ⊢
          have hgb := camCount_roundOut_take_le b cams st hnd hgs g p
          simp only [camCount] at hgb
          omega
        · have hR : (roundOut b cams st).take p = roundOut b cams st :=
            List.take_of_length_le (le_of_lt hp)
          rw [hR] at hpg hph ⊢
          rw [camCount_roundOut b cams st hnd hgs g, if_pos hgm] at hpg
          rw [camCount_roundOut b cams st hnd hgs h, if_pos hhm] at hph
          rw [camCount_roundOut b cams st hnd hgs g, if_pos hgm,
            camCount_roundOut b cams st hnd hgs h, if_pos hhm]
          set q := p - (roundOut b cams st).length with hq
          set Bg := camCount g
            ((rrLoop b cams fuel (roundSt b cams st)).take q) with hBg
          set Bh := camCount h
            ((rrLoop b cams fuel (roundSt b cams st)).take q) with hBh
          have hstg : roundSt b cams st g = (st g).drop b := by
            rw [roundSt_apply b cams st hnd g, if_pos hgm]
          have hsth : roundSt b cams st h = (st h).drop b := by
            rw [roundSt_apply b cams st hnd h, if_pos hhm]
          have hpend_g : Bg < (roundSt b cams st g).length := by
            rw [hstg, List.length_drop]
            omega
          have hpend_h : Bh < (roundSt b cams st h).length := by
            rw [hsth, List.length_drop]
            omega
          have IH := rrLoop_fairness b cams hnd fuel (roundSt b cams st)
            (goodSt_roundSt b cams st hgs) q g h hgm hhm hpend_g hpend_h
          omega
      · have hO : rrLoop b cams (fuel + 1) st = [] := by
          simp only [rrLoop, if_neg hany]
        rw [hO] at hpg hph ⊢
        simp [camCount]

theorem nodup_cameraKeys (files : List String) : (cameraKeys files).Nodup :=
  List.nodup_dedup _

theorem sortedCameras_perm (files : List String) :
    List.Perm (sortedCameras files) (cameraKeys files) :=
  List.perm_insertionSort strLe (cameraKeys files)

theorem nodup_sortedCameras (files : List String) : (sortedCameras files).Nodup :=
  ((sortedCameras_perm files).nodup_iff).mpr (nodup_cameraKeys files)

theorem rotateAfter_perm (cams : List String) (start : Option String) :
    List.Perm (rotateAfter cams start) cams := by
  cases start with
  | none => exact List.Perm.refl _
  | some s =>
      simp only [rotateAfter]
      by_cases hs : s ∈ cams
      · rw [if_pos hs]
        exact List.perm_append_comm.trans
          (by rw [List.take_append_drop])
      · rw [if_neg hs]

theorem mem_rotated_iff (files : List String) (start : Option String) (g : String) :
    g ∈ rotateAfter (sortedCameras files) start ↔ g ∈ cameraKeys files :=
  (rotateAfter_perm (sortedCameras files) start).mem_iff.trans
    (sortedCameras_perm files).mem_iff

theorem nodup_rotated (files : List String) (start : Option String) :
    (rotateAfter (sortedCameras files) start).Nodup :=
  ((rotateAfter_perm (sortedCameras files) start).nodup_iff).mpr
    (nodup_sortedCameras files)

/-- C4: at every prefix of the round-robin scheduler's flat output, the number
of files dispatched so far from any two camera folders that both still have
undispatched files differs by at most the batch size. Stated one-sidedly for
arbitrary folders g, h; exchanging g and h bounds the difference in both
directions. -/
theorem round_robin_fairness_bound (files : List String) (b p : Nat)
    (start : Option String) (g h : String)
    (hg : g ∈ cameraKeys files) (hh : h ∈ cameraKeys files)
    (hpg : camCount g ((organize_files_round_robin files b start).take p) <
      (camera_group files g).length)
    (hph : camCount h ((organize_files_round_robin files b start).take p) <
      (camera_group files h).length) :
    camCount g ((organize_files_round_robin files b start).take p) ≤
      camCount h ((organize_files_round_robin files b start).take p) + b :=
  rrLoop_fairness b (rotateAfter (sortedCameras files) start)
    (nodup_rotated files start) 10000 (camera_group files)
    (goodSt_camera_group files) p g h
    ((mem_rotated_iff files start g).mpr hg)
    ((mem_rotated_iff files start h).mpr hh) hpg hph

/-- Witness for C4 at a concrete input: two cameras with 4 and 2 pending files,
batch size 3, prefix length 4 — both cameras still pending, counts 3 and 1,
and 3 ≤ 1 + 3. -/
theorem round_robin_fairness_bound_witness :
    camCount "192.168.1.2"
      ((organize_files_round_robin
        ["192.168.1.2/a1.dav", "192.168.1.2/a2.dav", "192.168.1.2/a3.dav",
         "192.168.1.2/a4.dav", "192.168.1.3/b1.dav", "192.168.1.3/b2.dav"]
        3 none).take 4) ≤
    camCount "192.168.1.3"
      ((organize_files_round_robin
        ["192.168.1.2/a1.dav", "192.168.1.2/a2.dav", "192.168.1.2/a3.dav",
         "192.168.1.2/a4.dav", "192.168.1.3/b1.dav", "192.168.1.3/b2.dav"]
        3 none).take 4) + 3 :=
  round_robin_fairness_bound
    ["192.168.1.2/a1.dav", "192.168.1.2/a2.dav", "192.168.1.2/a3.dav",
     "192.168.1.2/a4.dav", "192.168.1.3/b1.dav", "192.168.1.3/b2.dav"]
    3 4 none "192.168.1.2" "192.168.1.3" (by decide) (by decide) (by decide)
    (by decide)

theorem idxOf_lt_length {a : String} :
    ∀ {l : List String}, a ∈ l → idxOf a l < l.length
  | b :: bs, h => by
      simp only [idxOf]
      by_cases hb : b = a
      · rw [if_pos hb]
        simp
      · rw [if_neg hb]
        have : a ∈ bs := by
          rcases List.mem_cons.mp h with h1 | h1
          · exact absurd h1.symm hb
          · exact h1
        simpa using idxOf_lt_length this

theorem get_idxOf {a : String} :
    ∀ {l : List String} (h : a ∈ l),
      l.get ⟨idxOf a l, idxOf_lt_length h⟩ = a
  | b :: bs, h => by
      by_cases hb : b = a
      · simp only [idxOf, if_pos hb]
        simpa using hb
      · have hmem : a ∈ bs := by
          rcases List.mem_cons.mp h with h1 | h1
          · exact absurd h1.symm hb
          · exact h1
        have := get_idxOf hmem
        simp only [idxOf, if_neg hb]
        simpa using this

theorem camera_group_ne_nil {files : List String} {c : String}
    (hc : c ∈ cameraKeys files) : camera_group files c ≠ [] := by
  have hc2 := List.mem_dedup.mp hc
  obtain ⟨f, hf, hcam⟩ := List.mem_filterMap.mp hc2
  exact List.ne_nil_of_mem (List.mem_filter.mpr ⟨hf, by simp [hcam]⟩)

theorem head?_rrLoop_cons (b fuel : Nat) (c0 : String) (cs : List String)
    (st : String → List String) (hfuel : fuel ≠ 0) (hb : 0 < b)
    (hne : st c0 ≠ []) :
    (rrLoop b (c0 :: cs) fuel st).head? = (st c0).head? := by
  obtain ⟨m, rfl⟩ : ∃ m, fuel = m + 1 := ⟨fuel - 1, by omega⟩
  have hany : (c0 :: cs).any (fun c => !(st c).isEmpty) = true :=
    List.any_eq_true.mpr ⟨c0, by simp, by simpa [List.isEmpty_iff] using hne⟩
  have hemp : ((st c0).isEmpty) = false := by
    simpa [List.isEmpty_iff] using hne
  simp only [rrLoop, if_pos hany, roundOut, hemp]
  obtain ⟨f, r, hfr⟩ : ∃ f r, st c0 = f :: r := by
    cases hst : st c0 with
    | nil => exact absurd hst hne
    | cons f r => exact ⟨f, r, rfl⟩
  obtain ⟨k, rfl⟩ : ∃ k, b = k + 1 := ⟨b - 1, by omega⟩
  rw [hfr]
  simp [List.take_succ_cons]

/-- C3 counterexample: with a single camera folder that is also the
continue-after folder, the produced order begins with that very folder —
"never begins with F itself" fails (the folder immediately following F in
sorted order, wrapping, is F). -/
theorem round_robin_single_folder_cex :
    (organize_files_round_robin ["192.168.1.7/2024-01-01/x.dav"] 3
        (some "192.168.1.7")).head? = some "192.168.1.7/2024-01-01/x.dav" ∧
    extract_camera "192.168.1.7/2024-01-01/x.dav" = some "192.168.1.7" := by
  exact ⟨by decide, by decide⟩

/-- C3 (amended): when a continue-after folder F is supplied and present among
the grouped folders (and the batch size is positive), the produced order
begins with a file of the folder at position (index of F + 1) mod (number of
folders) in sorted folder order — the folder immediately following F, wrapping
past the end. When there are at least two folders this starting folder is
never F itself; with a single folder it is necessarily F. -/
theorem round_robin_continuation (files : List String) (b : Nat) (F : String)
    (hb : 0 < b) (hF : F ∈ cameraKeys files) :
    (∃ f, (organize_files_round_robin files b (some F)).head? = some f ∧
      extract_camera f = some ((sortedCameras files).getD
        ((idxOf F (sortedCameras files) + 1) % (sortedCameras files).length)
        "")) ∧
    (2 ≤ (sortedCameras files).length →
      ∀ f, (organize_files_round_robin files b (some F)).head? = some f →
        extract_camera f ≠ some F) := by
  have hFs : F ∈ sortedCameras files := (sortedCameras_perm files).mem_iff.mpr hF
  have hn : 0 < (sortedCameras files).length :=
    List.length_pos.mpr (List.ne_nil_of_mem hFs)
  have hjn : (idxOf F (sortedCameras files) + 1) % (sortedCameras files).length <
      (sortedCameras files).length := Nat.mod_lt _ hn
  have hrot : rotateAfter (sortedCameras files) (some F) =
      (sortedCameras files).drop
          ((idxOf F (sortedCameras files) + 1) % (sortedCameras files).length) ++
        (sortedCameras files).take
          ((idxOf F (sortedCameras files) + 1) % (sortedCameras files).length) := by
    simp only [rotateAfter, if_pos hFs]
  have hdrop : (sortedCameras files).drop
        ((idxOf F (sortedCameras files) + 1) % (sortedCameras files).length) =
      (sortedCameras files).get ⟨_, hjn⟩ ::
        (sortedCameras files).drop
          ((idxOf F (sortedCameras files) + 1) % (sortedCameras files).length + 1) :=
    List.drop_eq_get_cons hjn
  have hc0keys : (sortedCameras files).get ⟨_, hjn⟩ ∈ cameraKeys files :=
    (sortedCameras_perm files).mem_iff.mp (List.get_mem _ _ hjn)
  have hgne : camera_group files ((sortedCameras files).get ⟨_, hjn⟩) ≠ [] :=
    camera_group_ne_nil hc0keys
  have hhead : (organize_files_round_robin files b (some F)).head? =
      (camera_group files ((sortedCameras files).get ⟨_, hjn⟩)).head? := by
    unfold organize_files_round_robin
    rw [hrot, hdrop, List.cons_append]
    exact head?_rrLoop_cons b 10000 _ _ _ (by norm_num) hb hgne
  obtain ⟨f, r, hfr⟩ : ∃ f r,
      camera_group files ((sortedCameras files).get ⟨_, hjn⟩) = f :: r := by
    cases hst : camera_group files ((sortedCameras files).get ⟨_, hjn⟩) with
    | nil => exact absurd hst hgne
    | cons f r => exact ⟨f, r, rfl⟩
  have hfcam : extract_camera f = some ((sortedCameras files).get ⟨_, hjn⟩) :=
    goodSt_camera_group files _ f (by rw [hfr]; simp)
  have hgetD : (sortedCameras files).getD
      ((idxOf F (sortedCameras files) + 1) % (sortedCameras files).length) "" =
      (sortedCameras files).get ⟨_, hjn⟩ := List.getD_eq_get _ _ hjn
  constructor
  · refine ⟨f, ?_, ?_⟩
    · rw [hhead, hfr]
      rfl
    · rw [hfcam, hgetD]
  · intro h2 f' hf'
    rw [hhead, hfr] at hf'
    have hff : f' = f := by
      simpa using hf'.symm
    subst hff
    rw [hfcam]
    intro hcontra
    have hc0F : (sortedCameras files).get ⟨_, hjn⟩ = F := by
      simpa using hcontra
    have hiF : (sortedCameras files).get
        ⟨idxOf F (sortedCameras files), idxOf_lt_length hFs⟩ = F := get_idxOf hFs
    have hinj := (List.Nodup.get_inj_iff (nodup_sortedCameras files)).mp
      (hc0F.trans hiF.symm)
    have hji : (idxOf F (sortedCameras files) + 1) % (sortedCameras files).length =
        idxOf F (sortedCameras files) := congrArg Fin.val hinj
    have hiln : idxOf F (sortedCameras files) < (sortedCameras files).length :=
      idxOf_lt_length hFs
    rcases Nat.lt_or_ge (idxOf F (sortedCameras files) + 1)
        (sortedCameras files).length with hlt | hge
    · rw [Nat.mod_eq_of_lt hlt] at hji
      omega
    · have heq2 : idxOf F (sortedCameras files) + 1 =
          (sortedCameras files).length := by omega
      rw [heq2, Nat.mod_self] at hji
      omega

/-- Witness for C3: two cameras, continue after the first — the order starts
with the second camera's file. -/
theorem round_robin_continuation_witness :
    ∃ f, (organize_files_round_robin
        ["192.168.1.2/a.dav", "192.168.1.3/b.dav"] 3
        (some "192.168.1.2")).head? = some f ∧
      extract_camera f = some ((sortedCameras
          ["192.168.1.2/a.dav", "192.168.1.3/b.dav"]).getD
        ((idxOf "192.168.1.2"
            (sortedCameras ["192.168.1.2/a.dav", "192.168.1.3/b.dav"]) + 1) %
          (sortedCameras ["192.168.1.2/a.dav", "192.168.1.3/b.dav"]).length)
        "") :=
  (round_robin_continuation ["192.168.1.2/a.dav", "192.168.1.3/b.dav"] 3
    "192.168.1.2" (by norm_num) (by decide)).1

theorem roundOut_congr (b : Nat) :
    ∀ (cams : List String) (st st' : String → List String),
      (∀ c ∈ cams, st c = st' c) → roundOut b cams st = roundOut b cams st'
  | [], _, _, _ => rfl
  | c :: cs, st, st', h => by
      have hc := h c (by simp)
      simp only [roundOut, hc]
      by_cases he : (st' c).isEmpty
      · simp only [if_pos he]
        exact roundOut_congr b cs st st'
          (fun x hx => h x (List.mem_cons_of_mem _ hx))
      · simp only [if_neg he]
        congr 1
        apply roundOut_congr
        intro x hx
        rcases eq_or_ne x c with rfl | hxc
        · rw [Function.update_same, Function.update_same]
        · rw [Function.update_noteq hxc, Function.update_noteq hxc]
          exact h x (List.mem_cons_of_mem _ hx)

theorem roundOut_eq_flatten (b : Nat) :
    ∀ (cams : List String) (st : String → List String), cams.Nodup →
      roundOut b cams st = (cams.map (fun c => (st c).take b)).flatten
  | [], _, _ => rfl
  | c :: cs, st, hnd => by
      obtain ⟨hc, hnd'⟩ := List.nodup_cons.mp hnd
      simp only [roundOut, List.map_cons, List.flatten_cons]
      by_cases he : (st c).isEmpty
      · rw [if_pos he]
        have hst : st c = [] := List.isEmpty_iff.mp he
        rw [roundOut_eq_flatten b cs st hnd', hst]
        simp
      · rw [if_neg he,
          roundOut_congr b cs (Function.update st c ((st c).drop b)) st
            (fun x hx =>
              Function.update_noteq (fun hxc => hc (by rw [← hxc]; exact hx)) _ _),
          roundOut_eq_flatten b cs st hnd']

theorem flatten_map_append_perm {α β : Type} (f g : α → List β) :
    ∀ (l : List α),
      List.Perm ((l.map f).flatten ++ (l.map g).flatten)
        ((l.map (fun a => f a ++ g a)).flatten)
  | [] => by simp
  | a :: l => by
      simp only [List.map_cons, List.flatten_cons]
      rw [List.append_assoc, List.append_assoc]
      apply List.Perm.append_left
      have hmid : List.Perm
          ((l.map f).flatten ++ (g a ++ (l.map g).flatten))
          (g a ++ ((l.map f).flatten ++ (l.map g).flatten)) := by
        rw [← List.append_assoc, ← List.append_assoc]
        exact List.Perm.append_right _ List.perm_append_comm
      exact hmid.trans
        (List.Perm.append_left (g a) (flatten_map_append_perm f g l))

theorem flatten_map_eq_nil {cams : List String} {st : String → List String}
    (h : ∀ c ∈ cams, st c = []) : (cams.map st).flatten = [] := by
  rw [List.flatten_eq_nil_iff]
  intro l hl
  obtain ⟨c, hc, rfl⟩ := List.mem_map.mp hl
  exact h c hc

theorem rrLoop_perm (b : Nat) (cams : List String) (hnd : cams.Nodup) :
    ∀ (fuel : Nat) (st : String → List String),
      (∀ c ∈ cams, (st c).length ≤ b * fuel) →
      List.Perm (rrLoop b cams fuel st) ((cams.map st).flatten)
  | 0, st, hlen => by
      have hall : ∀ c ∈ cams, st c = [] := by
        intro c hc
        have := hlen c hc
        exact List.length_eq_zero.mp (by omega)
      simp only [rrLoop]
      rw [flatten_map_eq_nil hall]
  | fuel + 1, st, hlen => by
      by_cases hany : cams.any (fun c => !(st c).isEmpty) = true
      · simp only [rrLoop, if_pos hany]
        have hst' : ∀ c ∈ cams, roundSt b cams st c = (st c).drop b :=
          fun c hc => by rw [roundSt_apply b cams st hnd c, if_pos hc]
        have hlen' : ∀ c ∈ cams, (roundSt b cams st c).length ≤ b * fuel := by
          intro c hc
          rw [hst' c hc, List.length_drop]
          have h1 := hlen c hc
          have h2 : b * (fuel + 1) = b * fuel + b := by ring
          omega
        have IH := rrLoop_perm b cams hnd fuel (roundSt b cams st) hlen'
        have hmap : cams.map (roundSt b cams st) =
            cams.map (fun c => (st c).drop b) := List.map_congr_left hst'
        rw [hmap] at IH
        have h1 : List.Perm
            (roundOut b cams st ++ rrLoop b cams fuel (roundSt b cams st))
            ((cams.map (fun c => (st c).take b)).flatten ++
              (cams.map (fun c => (st c).drop b)).flatten) := by
          rw [roundOut_eq_flatten b cams st hnd]
          exact List.Perm.append_left _ IH
        have h2 := flatten_map_append_perm (fun c => (st c).take b)
          (fun c => (st c).drop b) cams
        have h3 : cams.map (fun c => (st c).take b ++ (st c).drop b) =
            cams.map st :=
          List.map_congr_left (fun c _ => List.take_append_drop b (st c))
        exact h1.trans (h2.trans (h3 ▸ List.Perm.refl _))
      · simp only [rrLoop, if_neg hany]
        have hall : ∀ c ∈ cams, st c = [] := by
          intro c hc
          by_contra hne
          apply hany
          exact List.any_eq_true.mpr
            ⟨c, hc, by simpa [List.isEmpty_iff] using hne⟩
        rw [flatten_map_eq_nil hall]

theorem count_camera_group (files : List String) (c : String) (a : String) :
    List.count a (camera_group files c) =
      if extract_camera a = some c then List.count a files else 0 := by
  simp only [camera_group]
  by_cases h : extract_camera a = some c
  · rw [if_pos h]
    exact List.count_filter (by simp [h])
  · rw [if_neg h]
    apply List.count_eq_zero_of_not_mem
    intro hmem
    have := (List.mem_filter.mp hmem).2
    exact h (by simpa using this)

theorem sum_map_ite_eq (k : Nat) (c0 : String) :
    ∀ {l : List String}, l.Nodup →
      (l.map (fun c => if c0 = c then k else 0)).sum = if c0 ∈ l then k else 0
  | [], _ => by simp
  | c :: l, hnd => by
      obtain ⟨hc, hnd'⟩ := List.nodup_cons.mp hnd
      simp only [List.map_cons, List.sum_cons]
      rw [sum_map_ite_eq k c0 hnd']
      rcases eq_or_ne c0 c with rfl | hne
      · rw [if_pos rfl, if_neg hc, if_pos (by simp)]
        omega
      · rw [if_neg hne]
        by_cases hm : c0 ∈ l
        · rw [if_pos hm, if_pos (List.mem_cons_of_mem c hm)]
          omega
        · rw [if_neg hm, if_neg (by simp [hne, hm])]

theorem flatten_groups_perm_filter (files : List String) :
    List.Perm (((cameraKeys files).map (camera_group files)).flatten)
      (files.filter (fun f => (extract_camera f).isSome)) := by
  rw [List.perm_iff_count]
  intro a
  rw [List.count_flatten, List.map_map]
  cases hcam : extract_camera a with
  | none =>
      have h1 : (cameraKeys files).map (List.count a ∘ camera_group files) =
          (cameraKeys files).map (fun _ => 0) := by
        apply List.map_congr_left
        intro c _
        simp [Function.comp, count_camera_group, hcam]
      rw [h1]
      have h2 : List.count a
          (files.filter (fun f => (extract_camera f).isSome)) = 0 := by
        apply List.count_eq_zero_of_not_mem
        intro hmem
        have := (List.mem_filter.mp hmem).2
        simp [hcam] at this
      rw [h2]
      simp
  | some c0 =>
      have h1 : (cameraKeys files).map (List.count a ∘ camera_group files) =
          (cameraKeys files).map
            (fun c => if c0 = c then List.count a files else 0) := by
        apply List.map_congr_left
        intro c _
        simp only [Function.comp_apply, count_camera_group, hcam,
          Option.some.injEq]
      rw [h1, sum_map_ite_eq (List.count a files) c0 (nodup_cameraKeys files)]
      have h2 : List.count a
          (files.filter (fun f => (extract_camera f).isSome)) =
          List.count a files := List.count_filter (by simp [hcam])
      rw [h2]
      by_cases hmem : c0 ∈ cameraKeys files
      · rw [if_pos hmem]
      · rw [if_neg hmem]
        have hz : List.count a files = 0 := by
          rw [List.count_eq_zero]
          intro hman
          exact hmem (List.mem_dedup.mpr
            (List.mem_filterMap.mpr ⟨a, hman, hcam⟩))
        rw [hz]

/-- C9 (amended): provided the round-robin loop can finish within its 10000
iteration safety cap (in particular whenever no camera folder holds more than
batch-size times 10000 pending files), the scheduler's output is exactly the
input files whose path contains a component starting with "192.168.1." — as a
multiset, for any batch size and any continue-after folder; files without such
a component are always omitted. -/
theorem round_robin_output_is_camera_files (files : List String) (b : Nat)
    (start : Option String)
    (hcap : ∀ c ∈ cameraKeys files, (camera_group files c).length ≤ b * 10000) :
    List.Perm (organize_files_round_robin files b start)
      (files.filter (fun f => (extract_camera f).isSome)) := by
  have h1 := rrLoop_perm b (rotateAfter (sortedCameras files) start)
    (nodup_rotated files start) 10000 (camera_group files)
    (fun c hc => hcap c ((mem_rotated_iff files start c).mp hc))
  have h2 : List.Perm
      (((rotateAfter (sortedCameras files) start).map
        (camera_group files)).flatten)
      (((cameraKeys files).map (camera_group files)).flatten) :=
    List.Perm.flatten (List.Perm.map _
      ((rotateAfter_perm _ start).trans (sortedCameras_perm files)))
  exact h1.trans (h2.trans (flatten_groups_perm_filter files))

/-- Witness for C9 at a concrete input: a file with no camera component is
dropped, the two camera files are kept, and the output is a permutation of the
filtered input. -/
theorem round_robin_output_is_camera_files_witness :
    List.Perm (organize_files_round_robin
        ["192.168.1.2/a.dav", "notes.txt", "192.168.1.3/b.dav"] 3 none)
      (["192.168.1.2/a.dav", "notes.txt", "192.168.1.3/b.dav"].filter
        (fun f => (extract_camera f).isSome)) :=
  round_robin_output_is_camera_files
    ["192.168.1.2/a.dav", "notes.txt", "192.168.1.3/b.dav"] 3 none (by decide)

theorem length_roundOut_le (b : Nat) :
    ∀ (cams : List String) (st : String → List String),
      (roundOut b cams st).length ≤ b * cams.length
  | [], _ => by simp [roundOut]
  | c :: cs, st => by
      simp only [roundOut, List.length_cons]
      by_cases he : (st c).isEmpty
      · rw [if_pos he]
        have h1 := length_roundOut_le b cs st
        have h2 : b * (cs.length + 1) = b * cs.length + b := by ring
        omega
      · rw [if_neg he, List.length_append]
        have h1 : ((st c).take b).length ≤ b := by
          simp [List.length_take]
        have h2 := length_roundOut_le b cs (Function.update st c ((st c).drop b))
        have h3 : b * (cs.length + 1) = b * cs.length + b := by ring
        omega

theorem length_rrLoop_le (b : Nat) (cams : List String) :
    ∀ (fuel : Nat) (st : String → List String),
      (rrLoop b cams fuel st).length ≤ fuel * (b * cams.length)
  | 0, st => by simp [rrLoop]
  | fuel + 1, st => by
      by_cases hany : cams.any (fun c => !(st c).isEmpty) = true
      · simp only [rrLoop, if_pos hany, List.length_append]
        have h1 := length_roundOut_le b cams st
        have h2 := length_rrLoop_le b cams fuel (roundSt b cams st)
        have h3 : (fuel + 1) * (b * cams.length) =
            fuel * (b * cams.length) + b * cams.length := by ring
        omega
      · have hO : rrLoop b cams (fuel + 1) st = [] := by
          simp only [rrLoop, if_neg hany]
        rw [hO]
        simp

theorem dedup_replicate_succ (a : String) :
    ∀ n : Nat, (List.replicate (n + 1) a).dedup = [a]
  | 0 => by simp
  | n + 1 => by
      rw [List.replicate_succ,
        List.dedup_cons_of_mem (by simp [List.mem_replicate]),
        dedup_replicate_succ a n]

/-- C9 counterexample: with 30001 files in a single camera folder and batch
size 3, the 10000-iteration safety cap stops the round-robin loop after 30000
files, so the produced order is not a permutation of the camera files of the
input — one file with a "192.168.1." component is silently dropped as well. -/
theorem round_robin_cap_drops_files :
    ¬ List.Perm
      (organize_files_round_robin
        (List.replicate 30001 "192.168.1.9/f.dav") 3 none)
      ((List.replicate 30001 "192.168.1.9/f.dav").filter
        (fun f => (extract_camera f).isSome)) := by
  intro hperm
  have hcam : extract_camera "192.168.1.9/f.dav" = some "192.168.1.9" := by
    decide
  have hlen := hperm.length_eq
  have hfil : (List.replicate 30001 "192.168.1.9/f.dav").filter
      (fun f => (extract_camera f).isSome) =
      List.replicate 30001 "192.168.1.9/f.dav" :=
    List.filter_replicate_of_pos (by simp [hcam])
  rw [hfil, List.length_replicate] at hlen
  have hsort : sortedCameras (List.replicate 30001 "192.168.1.9/f.dav") =
      ["192.168.1.9"] := by
    unfold sortedCameras cameraKeys
    rw [List.filterMap_replicate_of_some hcam, dedup_replicate_succ _ 30000]
    rfl
  have hbound := length_rrLoop_le 3
    (rotateAfter (sortedCameras (List.replicate 30001 "192.168.1.9/f.dav")) none)
    10000 (camera_group (List.replicate 30001 "192.168.1.9/f.dav"))
  rw [hsort] at hbound
  unfold organize_files_round_robin at hlen
  rw [hsort] at hlen
  simp only [rotateAfter, List.length_cons, List.length_nil] at hbound hlen
  omega
